import Mathlib

/-!
# Verification of the DH kinematics core (roboticsinrust)

Shallow embedding of the kinematic-chain engine of the repository:
`joint.rs` (joint state with limit clamping), `dh.rs` (DH rows/table, poses,
geometric Jacobian, damped pseudo-inverse), `inverse_kinematics_solvers.rs`
(closed-form URT IK solver) and `task_space_pid_controller.rs` (hold/track
state machine).

`f64` is modelled by `ℝ`.  Consequences of this choice that matter below:
* division by zero yields `0` (Lean convention) instead of `±inf`/NaN;
* every real number is "finite", so the solver's `is_finite` guards are
  modelled by a predicate that always holds (`isFinite`);
* `nalgebra`'s `try_inverse` is modelled as `some M⁻¹` exactly when the
  determinant is a unit, `none` otherwise.

Rust panics (out-of-range indexing, `Option::expect`) are not given an error
semantics: the offending lookups are total with a `default`/junk fallback and
every theorem carries hypotheses that keep the evaluation inside the
panic-free domain (valid joint indices, non-empty chains).
-/

open Matrix Real

noncomputable section

namespace Robotics

/-- `f64::to_radians`: degrees to radians. -/
def toRadians (x : ℝ) : ℝ := x * (Real.pi / 180)

/-- 4×4 homogeneous transform. -/
abbrev Mat4 : Type := Matrix (Fin 4) (Fin 4) ℝ

/-- 3×3 rotation matrix. -/
abbrev Mat3 : Type := Matrix (Fin 3) (Fin 3) ℝ

/-- 3-vector. -/
abbrev Vec3 : Type := Fin 3 → ℝ

/-- Cross product of two 3-vectors (`nalgebra`'s `Vector3::cross`). -/
def cross3 (u v : Vec3) : Vec3 :=
  ![u 1 * v 2 - u 2 * v 1, u 2 * v 0 - u 0 * v 2, u 0 * v 1 - u 1 * v 0]

/-- Euclidean norm of a 3-vector (`nalgebra`'s `Vector3::norm`). -/
def vnorm (v : Vec3) : ℝ := Real.sqrt (v 0 ^ 2 + v 1 ^ 2 + v 2 ^ 2)

-- ---------------------------------------------------------------------------
-- joint.rs
-- ---------------------------------------------------------------------------

/-- `JointType` from `joint.rs`. -/
inductive JointType : Type
  | revolute
  | prismatic
deriving DecidableEq

/-- `Joint` from `joint.rs`. -/
structure Joint : Type where
  joint_type : JointType
  position : ℝ
  velocity : ℝ
  limit_min : Option ℝ
  limit_max : Option ℝ

/-- `Joint::new`: position and velocity start at `0`; limits of revolute
joints are converted from degrees to radians.  Note that `new` does NOT clamp
the initial position to the limits. -/
def Joint.new (joint_type : JointType) (limit_min limit_max : Option ℝ) : Joint :=
  let is_revolute : Bool := joint_type = JointType.revolute
  { joint_type := joint_type
    position := 0
    velocity := 0
    limit_min := limit_min.map (fun val => if is_revolute then toRadians val else val)
    limit_max := limit_max.map (fun val => if is_revolute then toRadians val else val) }

instance : Inhabited Joint := ⟨Joint.new JointType.revolute none none⟩

/-- `Joint::set_position`: convert degrees to radians for revolute joints,
then clamp below by `limit_min` and above by `limit_max` (in that order). -/
def Joint.set_position (j : Joint) (pos : ℝ) : Joint :=
  let p0 : ℝ :=
    match j.joint_type with
    | JointType.revolute => toRadians pos
    | JointType.prismatic => pos
  let p1 : ℝ :=
    match j.limit_min with
    | some mn => if p0 < mn then mn else p0
    | none => p0
  let p2 : ℝ :=
    match j.limit_max with
    | some mx => if p1 > mx then mx else p1
    | none => p1
  { j with position := p2 }

/-- `Joint::set_velocity`. -/
def Joint.set_velocity (j : Joint) (vel : ℝ) : Joint :=
  match j.joint_type with
  | JointType.revolute => { j with velocity := toRadians vel }
  | JointType.prismatic => { j with velocity := vel }

/-- The limit invariant claimed by the spec: the stored position lies between
the limits whenever both are set. -/
def Joint.withinLimits (j : Joint) : Prop :=
  ∀ mn ∈ j.limit_min, ∀ mx ∈ j.limit_max, mn ≤ j.position ∧ j.position ≤ mx

-- ---------------------------------------------------------------------------
-- dh.rs: DHRow
-- ---------------------------------------------------------------------------

/-- `DHRow` from `dh.rs`: `alpha`/`theta` are stored in radians. -/
structure DHRow : Type where
  a : ℝ
  alpha : ℝ
  d : ℝ
  theta : ℝ
  fixed_frame : Bool
  joint_index : Option ℕ

/-- `DHRow::new` converts the `alpha` and `theta` arguments from degrees. -/
def DHRow.new (a alpha d theta : ℝ) (fixed_frame : Bool) (joint_index : Option ℕ) : DHRow :=
  { a := a, alpha := toRadians alpha, d := d, theta := toRadians theta
    fixed_frame := fixed_frame, joint_index := joint_index }

/-- The matrix literal of `DHRow::dh_row_matrix` (the expanded form of
`T(x,a)·R(x,alpha)·T(z,d)·R(z,theta)`). -/
def dh_row_matrix (a alpha d theta : ℝ) : Mat4 :=
  !![Real.cos theta, -Real.sin theta, 0, a;
     Real.cos alpha * Real.sin theta, Real.cos alpha * Real.cos theta,
       -Real.sin alpha, -d * Real.sin alpha;
     Real.sin alpha * Real.sin theta, Real.sin alpha * Real.cos theta,
       Real.cos alpha, d * Real.cos alpha;
     0, 0, 0, 1]

/-- `joints[idx]` on a `&[Joint]` of length `J`; an out-of-range index (a
panic in Rust) falls back to `default` and is excluded by the theorems'
hypotheses. -/
def jointAt {J : ℕ} (joints : Fin J → Joint) (idx : ℕ) : Joint :=
  if h : idx < J then joints ⟨idx, h⟩ else default

/-- The joint referenced by a row (`joint_index.expect(..)` followed by the
slice lookup); a missing index (a panic in Rust) falls back to index `0`. -/
def DHRow.refJoint {J : ℕ} (row : DHRow) (joints : Fin J → Joint) : Joint :=
  jointAt joints (row.joint_index.getD 0)

/-- `theta_total` of `DHRow::get_row_trans_mat`. -/
def DHRow.thetaTotal {J : ℕ} (row : DHRow) (joints : Fin J → Joint) : ℝ :=
  if row.fixed_frame then row.theta
  else
    match (row.refJoint joints).joint_type with
    | JointType.revolute => row.theta + (row.refJoint joints).position
    | JointType.prismatic => row.theta

/-- `d_total` of `DHRow::get_row_trans_mat`. -/
def DHRow.dTotal {J : ℕ} (row : DHRow) (joints : Fin J → Joint) : ℝ :=
  if row.fixed_frame then row.d
  else
    match (row.refJoint joints).joint_type with
    | JointType.revolute => row.d
    | JointType.prismatic => row.d + (row.refJoint joints).position

/-- `DHRow::get_row_trans_mat`. -/
def DHRow.get_row_trans_mat {J : ℕ} (row : DHRow) (joints : Fin J → Joint) : Mat4 :=
  dh_row_matrix row.a row.alpha (row.dTotal joints) (row.thetaTotal joints)

-- Spec-side elementary homogeneous transforms, written from the spec's words
-- "Translate(a,0,0) · RotateX(alpha) · Translate(0,0,d) · RotateZ(theta)".

/-- Homogeneous translation along x by `a`. -/
def translateX (a : ℝ) : Mat4 :=
  !![1, 0, 0, a; 0, 1, 0, 0; 0, 0, 1, 0; 0, 0, 0, 1]

/-- Homogeneous translation along z by `d`. -/
def translateZ (d : ℝ) : Mat4 :=
  !![1, 0, 0, 0; 0, 1, 0, 0; 0, 0, 1, d; 0, 0, 0, 1]

/-- Homogeneous rotation about x by `alpha`. -/
def rotateX (alpha : ℝ) : Mat4 :=
  !![1, 0, 0, 0;
     0, Real.cos alpha, -Real.sin alpha, 0;
     0, Real.sin alpha, Real.cos alpha, 0;
     0, 0, 0, 1]

/-- Homogeneous rotation about z by `theta`. -/
def rotateZ (theta : ℝ) : Mat4 :=
  !![Real.cos theta, -Real.sin theta, 0, 0;
     Real.sin theta, Real.cos theta, 0, 0;
     0, 0, 1, 0;
     0, 0, 0, 1]

/-- Entrywise product formula for 4×4 matrix literals (the analogue of
Mathlib's `Matrix.mul_fin_three`). -/
theorem mul_fin_four {α : Type} [AddCommMonoid α] [Mul α]
    (a₁₁ a₁₂ a₁₃ a₁₄ a₂₁ a₂₂ a₂₃ a₂₄ a₃₁ a₃₂ a₃₃ a₃₄ a₄₁ a₄₂ a₄₃ a₄₄
      b₁₁ b₁₂ b₁₃ b₁₄ b₂₁ b₂₂ b₂₃ b₂₄ b₃₁ b₃₂ b₃₃ b₃₄ b₄₁ b₄₂ b₄₃ b₄₄ : α) :
    !![a₁₁, a₁₂, a₁₃, a₁₄;
       a₂₁, a₂₂, a₂₃, a₂₄;
       a₃₁, a₃₂, a₃₃, a₃₄;
       a₄₁, a₄₂, a₄₃, a₄₄] *
    !![b₁₁, b₁₂, b₁₃, b₁₄;
       b₂₁, b₂₂, b₂₃, b₂₄;
       b₃₁, b₃₂, b₃₃, b₃₄;
       b₄₁, b₄₂, b₄₃, b₄₄] =
    !![a₁₁*b₁₁ + a₁₂*b₂₁ + a₁₃*b₃₁ + a₁₄*b₄₁, a₁₁*b₁₂ + a₁₂*b₂₂ + a₁₃*b₃₂ + a₁₄*b₄₂,
         a₁₁*b₁₃ + a₁₂*b₂₃ + a₁₃*b₃₃ + a₁₄*b₄₃, a₁₁*b₁₄ + a₁₂*b₂₄ + a₁₃*b₃₄ + a₁₄*b₄₄;
       a₂₁*b₁₁ + a₂₂*b₂₁ + a₂₃*b₃₁ + a₂₄*b₄₁, a₂₁*b₁₂ + a₂₂*b₂₂ + a₂₃*b₃₂ + a₂₄*b₄₂,
         a₂₁*b₁₃ + a₂₂*b₂₃ + a₂₃*b₃₃ + a₂₄*b₄₃, a₂₁*b₁₄ + a₂₂*b₂₄ + a₂₃*b₃₄ + a₂₄*b₄₄;
       a₃₁*b₁₁ + a₃₂*b₂₁ + a₃₃*b₃₁ + a₃₄*b₄₁, a₃₁*b₁₂ + a₃₂*b₂₂ + a₃₃*b₃₂ + a₃₄*b₄₂,
         a₃₁*b₁₃ + a₃₂*b₂₃ + a₃₃*b₃₃ + a₃₄*b₄₃, a₃₁*b₁₄ + a₃₂*b₂₄ + a₃₃*b₃₄ + a₃₄*b₄₄;
       a₄₁*b₁₁ + a₄₂*b₂₁ + a₄₃*b₃₁ + a₄₄*b₄₁, a₄₁*b₁₂ + a₄₂*b₂₂ + a₄₃*b₃₂ + a₄₄*b₄₂,
         a₄₁*b₁₃ + a₄₂*b₂₃ + a₄₃*b₃₃ + a₄₄*b₄₃, a₄₁*b₁₄ + a₄₂*b₂₄ + a₄₃*b₃₄ + a₄₄*b₄₄] := by
  ext i j
  fin_cases i <;> fin_cases j <;>
    simp [Matrix.mul_apply, dotProduct, Fin.sum_univ_succ, ← add_assoc]

/-- The matrix literal in `dh_row_matrix` is exactly the product
`Translate(a,0,0) · RotateX(alpha) · Translate(0,0,d) · RotateZ(theta)`. -/
theorem dh_row_matrix_eq_decomposition (a alpha d theta : ℝ) :
    translateX a * rotateX alpha * translateZ d * rotateZ theta =
      dh_row_matrix a alpha d theta := by
  rw [translateX, rotateX, translateZ, rotateZ, dh_row_matrix,
    mul_fin_four, mul_fin_four, mul_fin_four]
  ext i j
  fin_cases i <;> fin_cases j <;> simp <;> ring

-- ---------------------------------------------------------------------------
-- dh.rs: Pose
-- ---------------------------------------------------------------------------

/-- `Pose` from `dh.rs`: position + rotation extracted from a homogeneous
matrix. -/
structure Pose : Type where
  position : Vec3
  rotation : Mat3

/-- `Pose::from_homogeneous`: top-left 3×3 block and top-right 3×1 column. -/
def Pose.from_homogeneous (m : Mat4) : Pose where
  position := fun i => m i.castSucc 3
  rotation := Matrix.of fun i j => m i.castSucc j.castSucc

/-- `Pose::to_homogeneous`. -/
def Pose.to_homogeneous (p : Pose) : Mat4 :=
  Matrix.of fun i j =>
    if hi : (i : ℕ) < 3 then
      if hj : (j : ℕ) < 3 then p.rotation ⟨i, hi⟩ ⟨j, hj⟩ else p.position ⟨i, hi⟩
    else if (j : ℕ) = 3 then 1 else 0

/-- `Pose::identity`. -/
def Pose.identity : Pose where
  position := fun _ => 0
  rotation := 1

/-- `Pose::x_axis`. -/
def Pose.x_axis (p : Pose) : Vec3 := fun i => p.rotation i 0

/-- `Pose::y_axis`. -/
def Pose.y_axis (p : Pose) : Vec3 := fun i => p.rotation i 1

/-- `Pose::z_axis` (rotation column 2). -/
def Pose.z_axis (p : Pose) : Vec3 := fun i => p.rotation i 2

-- ---------------------------------------------------------------------------
-- dh.rs: DHTable
-- ---------------------------------------------------------------------------

/-- `DHTable<F, J>`: `F` DH rows describing a chain with `J` movable joints. -/
structure DHTable (F J : ℕ) : Type where
  rows : Fin F → DHRow

/-- `DHTable::new` stores the row array unchanged — it performs no
validation whatsoever (in particular no empty-chain check). -/
def DHTable.new {F J : ℕ} (rows : Fin F → DHRow) : DHTable F J :=
  { rows := rows }

/-- The per-row transforms of the table, in chain order. -/
def DHTable.rowMats {F J : ℕ} (t : DHTable F J) (joints : Fin J → Joint) : List Mat4 :=
  (List.finRange F).map fun i => (t.rows i).get_row_trans_mat joints

/-- The running product `rows[0] * … * rows[n-1]` of the cumulative-transform
loops in `all_poses` / `get_frame_pose`. -/
def DHTable.prefixTransform {F J : ℕ} (t : DHTable F J) (joints : Fin J → Joint)
    (n : ℕ) : Mat4 :=
  ((t.rowMats joints).take n).prod

/-- `DHTable::all_poses`: cumulative pose of every frame; entry `i` is the
product of rows `0..=i` (row `i` included). -/
def DHTable.all_poses {F J : ℕ} (t : DHTable F J) (joints : Fin J → Joint) :
    Fin F → Pose :=
  fun i => Pose.from_homogeneous (t.prefixTransform joints (i.1 + 1))

/-- `DHTable::get_frame_pose`: the loop runs over `0..frame_index`, so row
`frame_index` itself is excluded.  The Rust assertion `frame_index < F` is a
hypothesis of the theorems. -/
def DHTable.get_frame_pose {F J : ℕ} (t : DHTable F J) (frame_index : ℕ)
    (joints : Fin J → Joint) : Pose :=
  Pose.from_homogeneous (t.prefixTransform joints frame_index)

-- ---------------------------------------------------------------------------
-- dh.rs: compute_jacobian
-- ---------------------------------------------------------------------------

/-- `poses[F - 1].position` in `compute_jacobian`; for `F = 0` the Rust code
panics (junk value here, excluded by hypotheses). -/
def DHTable.pEnd {F J : ℕ} (t : DHTable F J) (joints : Fin J → Joint) : Vec3 :=
  if h : 0 < F then (t.all_poses joints ⟨F - 1, by omega⟩).position else fun _ => 0

/-- Body of the `for (i, row)` loop of `compute_jacobian`: fixed rows leave
the matrix unchanged, a joint-bearing row overwrites the column of its joint
index.  An out-of-range joint index (a Rust panic) leaves the matrix
unchanged here and is excluded by the theorems' hypotheses. -/
def DHTable.jacStep {F J : ℕ} (t : DHTable F J) (joints : Fin J → Joint)
    (poses : Fin F → Pose) (p_end : Vec3)
    (m : Matrix (Fin 6) (Fin J) ℝ) (i : Fin F) : Matrix (Fin 6) (Fin J) ℝ :=
  let row := t.rows i
  if row.fixed_frame then m
  else
    let k := row.joint_index.getD 0
    if h : k < J then
      let z_i : Vec3 := (poses i).z_axis
      let p_diff : Vec3 := fun c => p_end c - (poses i).position c
      let lin : Vec3 :=
        match (joints ⟨k, h⟩).joint_type with
        | JointType.revolute => cross3 z_i p_diff
        | JointType.prismatic => z_i
      let ang : Vec3 :=
        match (joints ⟨k, h⟩).joint_type with
        | JointType.revolute => z_i
        | JointType.prismatic => fun _ => 0
      Matrix.of fun r c =>
        if c = (⟨k, h⟩ : Fin J) then
          if hr : (r : ℕ) < 3 then lin ⟨r, hr⟩ else ang ⟨(r : ℕ) - 3, by omega⟩
        else m r c
    else m

/-- `DHTable::compute_jacobian`: start from the zero 6×J matrix and process
the rows in order. -/
def DHTable.compute_jacobian {F J : ℕ} (t : DHTable F J) (joints : Fin J → Joint) :
    Matrix (Fin 6) (Fin J) ℝ :=
  (List.finRange F).foldl (t.jacStep joints (t.all_poses joints) (t.pEnd joints)) 0

-- ---------------------------------------------------------------------------
-- dh.rs: damped_moore_penrose_pseudo_inverse
-- ---------------------------------------------------------------------------

/-- The 6×6 damped Gram matrix `J*Jᵀ` with `λ²` added on the diagonal. -/
def dampedInnerR {J : ℕ} (j : Matrix (Fin 6) (Fin J) ℝ) (l2 : ℝ) :
    Matrix (Fin 6) (Fin 6) ℝ :=
  Matrix.of fun i k => (j * jᵀ) i k + if i = k then l2 else 0

/-- The J×J damped Gram matrix `Jᵀ*J` with `λ²` added on the diagonal. -/
def dampedInnerL {J : ℕ} (j : Matrix (Fin 6) (Fin J) ℝ) (l2 : ℝ) :
    Matrix (Fin J) (Fin J) ℝ :=
  Matrix.of fun i k => (jᵀ * j) i k + if i = k then l2 else 0

open Classical in
/-- `nalgebra`'s `try_inverse` over `ℝ`: `some M⁻¹` exactly when the
determinant is a unit, `none` otherwise. -/
def tryInverse {n : ℕ} (m : Matrix (Fin n) (Fin n) ℝ) :
    Option (Matrix (Fin n) (Fin n) ℝ) :=
  if IsUnit m.det then some m⁻¹ else none

/-- `DHTable::damped_moore_penrose_pseudo_inverse`: right inverse
`Jᵀ(JJᵀ+λ²I₆)⁻¹` when `J ≥ 6`, left inverse `(JᵀJ+λ²I_J)⁻¹Jᵀ` when `J < 6`;
`λ` defaults to `1e-4`; a singular damped matrix yields the zero matrix (the
Rust code also prints a warning, a side effect not modelled). -/
def DHTable.damped_moore_penrose_pseudo_inverse {F J : ℕ} (t : DHTable F J)
    (joints : Fin J → Joint) (maybe_j : Option (Matrix (Fin 6) (Fin J) ℝ))
    (lambda : Option ℝ) : Matrix (Fin J) (Fin 6) ℝ :=
  let j : Matrix (Fin 6) (Fin J) ℝ :=
    match maybe_j with
    | some j_ref => j_ref
    | none => t.compute_jacobian joints
  let jt := jᵀ
  let lambda_val := lambda.getD 1e-4
  let l2 := lambda_val ^ 2
  if 6 ≤ J then
    match tryInverse (dampedInnerR j l2) with
    | some inv => jt * inv
    | none => 0
  else
    match tryInverse (dampedInnerL j l2) with
    | some inv => inv * jt
    | none => 0

-- ---------------------------------------------------------------------------
-- inverse_kinematics_solvers.rs
-- ---------------------------------------------------------------------------

/-- `f64::atan2` over `ℝ` (standard two-argument arctangent; `atan2 0 0 = 0`). -/
def atan2 (y x : ℝ) : ℝ :=
  if 0 < x then Real.arctan (y / x)
  else if x < 0 then
    if 0 ≤ y then Real.arctan (y / x) + Real.pi else Real.arctan (y / x) - Real.pi
  else
    if 0 < y then Real.pi / 2 else if y < 0 then -(Real.pi / 2) else 0

/-- `f64::is_finite`, modelled over `ℝ`: every real number is finite (the NaN
and infinity cases of `f64` lie outside the real-number embedding). -/
def isFinite (_ : ℝ) : Bool := true

/-- The `cos_theta3` intermediate of `UrtIkSolver::solve_ik` (law of cosines
at the wrist center). -/
def cosTheta3 (x y z : ℝ) (r : Mat3) (l1 l2 l3 l4 l5 : ℝ) : ℝ :=
  let d := l4 + l5
  let wx := x - d * r 0 2
  let wy := y - d * r 1 2
  let wz := z - d * r 2 2
  let r_val := Real.sqrt (wx ^ 2 + wy ^ 2)
  let s := wz - l1
  (r_val ^ 2 + s ^ 2 - l2 ^ 2 - l3 ^ 2) / (2 * l2 * l3)

/-- `UrtIkSolver::solve_ik` from `inverse_kinematics_solvers.rs`. -/
def UrtIkSolver.solve_ik (x y z : ℝ) (r : Mat3) (link_lengths : List ℝ) :
    Except String (Fin 6 → ℝ) :=
  match link_lengths with
  | [l1, l2, l3, l4, l5] =>
    let d := l4 + l5
    let wx := x - d * r 0 2
    let wy := y - d * r 1 2
    let wz := z - d * r 2 2
    let theta1 := atan2 wy wx
    let r_val := Real.sqrt (wx ^ 2 + wy ^ 2)
    let s := wz - l1
    let cos_theta3 := cosTheta3 x y z r l1 l2 l3 l4 l5
    if 1 < |cos_theta3| then Except.error "Target out of workspace: theta3 complex"
    else
      let sin_theta3 := Real.sqrt (1 - cos_theta3 * cos_theta3)
      let theta3 := atan2 sin_theta3 cos_theta3
      let theta2 := atan2 s r_val - atan2 (l3 * sin_theta3) (l2 + l3 * cos_theta3)
      if ¬ (isFinite theta1 ∧ isFinite theta2 ∧ isFinite theta3) then
        Except.error "Target out of workspace: base joints complex"
      else
        let c1 := Real.cos theta1
        let s1 := Real.sin theta1
        let c23 := Real.cos (theta2 + theta3)
        let s23 := Real.sin (theta2 + theta3)
        let theta4 := atan2 (r 1 2 * c1 - r 0 2 * s1)
          (r 0 2 * c23 * c1 - r 2 2 * s23 + r 1 2 * c23 * s1)
        let expr := -(r 2 2) * c23 - r 0 2 * s23 * c1 - r 1 2 * s23 * s1
        let theta5 := atan2 (Real.sqrt (1 - expr ^ 2)) (-expr)
        let theta6 := atan2 (-(r 2 1) * c23 - r 0 1 * s23 * c1 - r 1 1 * s23 * s1)
          (-(r 2 0) * c23 - r 0 0 * s23 * c1 - r 1 0 * s23 * s1)
        let thetas : Fin 6 → ℝ := ![theta1, theta2, theta3, theta4, theta5, theta6]
        if ¬ (∀ i : Fin 6, isFinite (thetas i)) then
          Except.error "One or more joint angles are invalid"
        else Except.ok thetas
  | _ => Except.error "URT IK Solver requires 5 link parameters"

-- ---------------------------------------------------------------------------
-- dh_arm_model.rs (the fields and operations used by the controller; the
-- polymorphic `ik_solver` trait object is not used by any operation modelled
-- here and is omitted from the structure)
-- ---------------------------------------------------------------------------

/-- `DHArmModel<F, J, S>` from `dh_arm_model.rs`. -/
structure DHArmModel (F J : ℕ) : Type where
  dh_table : DHTable F J
  joints : Fin J → Joint
  jacobian : Option (Matrix (Fin 6) (Fin J) ℝ)
  inv_jacobian : Option (Matrix (Fin J) (Fin 6) ℝ)
  dirty : Bool
  damping : ℝ
  ik_link_parameters : List ℝ

/-- `DHArmModel::new`. -/
def DHArmModel.new {F J : ℕ} (dh_table : DHTable F J) (joints : Fin J → Joint)
    (damping : Option ℝ) (ik_link_parameters : List ℝ) : DHArmModel F J :=
  { dh_table := dh_table, joints := joints, jacobian := none, inv_jacobian := none
    dirty := true, damping := damping.getD 1e-4
    ik_link_parameters := ik_link_parameters }

/-- `DHArmModel::set_joint_positions` (clamped, unit-converting setter). -/
def DHArmModel.set_joint_positions {F J : ℕ} (arm : DHArmModel F J)
    (positions : Fin J → ℝ) : DHArmModel F J :=
  { arm with joints := fun i => (arm.joints i).set_position (positions i), dirty := true }

/-- `DHArmModel::set_joint_velocities`. -/
def DHArmModel.set_joint_velocities {F J : ℕ} (arm : DHArmModel F J)
    (velocities : Fin J → ℝ) : DHArmModel F J :=
  { arm with joints := fun i => (arm.joints i).set_velocity (velocities i), dirty := true }

/-- `DHArmModel::update`: recompute the cached Jacobian and pseudo-inverse
when dirty. -/
def DHArmModel.update {F J : ℕ} (arm : DHArmModel F J) : DHArmModel F J :=
  if arm.dirty then
    let jm := arm.dh_table.compute_jacobian arm.joints
    let inv_j := arm.dh_table.damped_moore_penrose_pseudo_inverse arm.joints
      (some jm) (some arm.damping)
    { arm with jacobian := some jm, inv_jacobian := some inv_j, dirty := false }
  else arm

/-- `DHArmModel::frame_pose`. -/
def DHArmModel.frame_pose {F J : ℕ} (arm : DHArmModel F J) (frame_index : ℕ) : Pose :=
  arm.dh_table.get_frame_pose frame_index arm.joints

/-- `DHArmModel::inv_jacobian(&mut self)`: update, then read the cache (the
`unwrap` cannot fail after `update`; `getD 0` is its total rendering). -/
def DHArmModel.inv_jacobian_value {F J : ℕ} (arm : DHArmModel F J) :
    Matrix (Fin J) (Fin 6) ℝ × DHArmModel F J :=
  let arm' := arm.update
  (arm'.inv_jacobian.getD 0, arm')

-- ---------------------------------------------------------------------------
-- task_space_pid_controller.rs
-- ---------------------------------------------------------------------------

/-- `f64::to_degrees`. -/
def toDegrees (x : ℝ) : ℝ := x * (180 / Real.pi)

/-- `TaskSpacePidController` state. -/
structure TaskSpacePidController : Type where
  kp : Fin 6 → ℝ
  ki : Fin 6 → ℝ
  kd : Fin 6 → ℝ
  integral_error : Fin 6 → ℝ
  prev_error : Fin 6 → ℝ
  x_ref : Vec3
  r_ref : Mat3
  holding : Bool
  cycle_count : ℕ
  orthonorm_interval : ℕ

/-- `TaskSpacePidController::new`. -/
def TaskSpacePidController.new (kp ki kd : Fin 6 → ℝ) : TaskSpacePidController :=
  { kp := kp, ki := ki, kd := kd
    integral_error := fun _ => 0, prev_error := fun _ => 0
    x_ref := fun _ => 0, r_ref := 1
    holding := false, cycle_count := 0, orthonorm_interval := 50 }

/-- `TaskSpacePidController::integrate_orientation`: small-angle update
`R_new = (I + [w]ₓ·dt) · R`. -/
def integrate_orientation (r : Mat3) (w : Vec3) (dt : ℝ) : Mat3 :=
  (!![0, -(w 2) * dt, (w 1) * dt;
      (w 2) * dt, 0, -(w 0) * dt;
      -(w 1) * dt, (w 0) * dt, 0] + 1) * r

open Classical in
/-- `TaskSpacePidController::compute`.  The SVD-based `svd_orthonormalize`
helper is passed in as an uninterpreted function `svdOrtho` (`nalgebra`'s SVD
has no shallow model here; no property proved below depends on its value).
Returns the updated controller, the updated arm, and the joint velocity
command array. -/
def TaskSpacePidController.compute {F J : ℕ} (c : TaskSpacePidController)
    (svdOrtho : Mat3 → Mat3) (arm : DHArmModel F J) (xd_des_arr : Fin 6 → ℝ)
    (motor_pos motor_vels : Fin J → ℝ) (dt : ℝ) :
    TaskSpacePidController × DHArmModel F J × (Fin J → ℝ) :=
  let arm1 := arm.set_joint_positions motor_pos
  let arm2 := arm1.set_joint_velocities motor_vels
  let wrist_pose := arm2.frame_pose (F - 1)
  let r_curr := wrist_pose.rotation
  let v_des_world : Vec3 := ![xd_des_arr 0, xd_des_arr 1, xd_des_arr 2]
  let w_des_ee : Vec3 :=
    ![toRadians (xd_des_arr 3), toRadians (xd_des_arr 4), toRadians (xd_des_arr 5)]
  let w_des_world : Vec3 := r_curr.mulVec w_des_ee
  let xd_des_world : Fin 6 → ℝ := fun i =>
    if hi : (i : ℕ) < 3 then v_des_world ⟨i, hi⟩ else w_des_world ⟨(i : ℕ) - 3, by omega⟩
  let vel_eps : ℝ := 1e-4
  let joystick_active : Prop := vel_eps < vnorm v_des_world ∨ vel_eps < vnorm w_des_ee
  let c1 : TaskSpacePidController :=
    if joystick_active then
      let x_ref' : Vec3 := fun i => c.x_ref i + v_des_world i * dt
      let r_ref' := integrate_orientation c.r_ref w_des_world dt
      let cc := c.cycle_count + 1
      let r_ref'' := if cc % c.orthonorm_interval = 0 then svdOrtho r_ref' else r_ref'
      { c with holding := false, x_ref := x_ref', r_ref := r_ref'', cycle_count := cc }
    else if c.holding = false then
      { c with x_ref := wrist_pose.position, r_ref := wrist_pose.rotation, holding := true }
    else c
  let e_pos : Vec3 := fun i => c1.x_ref i - wrist_pose.position i
  let x_e := wrist_pose.x_axis
  let y_e := wrist_pose.y_axis
  let z_e := wrist_pose.z_axis
  let x_r : Vec3 := fun i => c1.r_ref i 0
  let y_r : Vec3 := fun i => c1.r_ref i 1
  let z_r : Vec3 := fun i => c1.r_ref i 2
  let e_ori : Vec3 := fun i =>
    0.5 * (cross3 x_e x_r i + cross3 y_e y_r i + cross3 z_e z_r i)
  let error : Fin 6 → ℝ := fun i =>
    if hi : (i : ℕ) < 3 then e_pos ⟨i, hi⟩ else e_ori ⟨(i : ℕ) - 3, by omega⟩
  let integral' : Fin 6 → ℝ := fun i => c1.integral_error i + error i * dt
  let d_error : Fin 6 → ℝ := fun i => (error i - c1.prev_error i) / dt
  let u_task : Fin 6 → ℝ := fun i =>
    xd_des_world i + c1.kp i * error i + c1.ki i * integral' i + c1.kd i * d_error i
  let c2 := { c1 with integral_error := integral', prev_error := error }
  let upd := arm2.inv_jacobian_value
  let qd_task : Fin J → ℝ := upd.1.mulVec u_task
  let qd_array : Fin J → ℝ := fun i => toDegrees (qd_task i)
  (c2, upd.2, qd_array)

/-- One controller input cycle: desired task-space velocity, encoder
positions/velocities, time step. -/
structure CycleInput (J : ℕ) : Type where
  xd_des_arr : Fin 6 → ℝ
  motor_pos : Fin J → ℝ
  motor_vels : Fin J → ℝ
  dt : ℝ

/-- Iterate `compute` over a list of cycles, threading controller and arm
state (the joint velocity outputs are discarded). -/
def runCycles {F J : ℕ} (svdOrtho : Mat3 → Mat3)
    (st : TaskSpacePidController × DHArmModel F J) (l : List (CycleInput J)) :
    TaskSpacePidController × DHArmModel F J :=
  l.foldl (fun p cyc =>
    let r := p.1.compute svdOrtho p.2 cyc.xd_des_arr cyc.motor_pos cyc.motor_vels cyc.dt
    (r.1, r.2.1)) st

-- ---------------------------------------------------------------------------
-- main.rs: the URT reference robot (6 revolute joints + fixed end-effector
-- row).  `main.rs` belongs to a divergent revision that tags rows with
-- `FrameType::Joint/Fixed`; the `dh.rs` constructor embedded here takes the
-- equivalent `fixed_frame` boolean.
-- ---------------------------------------------------------------------------

/-- The DH table literal of `main.rs`. -/
def urtTable : DHTable 7 6 :=
  DHTable.new
    ![DHRow.new 0 0 9 0 false (some 0),
      DHRow.new 0 (-90) 0 (-90) false (some 1),
      DHRow.new 34 0 0 90 false (some 2),
      DHRow.new 0 90 32 0 false (some 3),
      DHRow.new 0 (-90) 0 0 false (some 4),
      DHRow.new 0 90 15 0 false (some 5),
      DHRow.new 0 0 15 0 true none]

/-- The six revolute joints of `main.rs` (no limits, position `0`). -/
def urtJoints : Fin 6 → Joint := fun _ => Joint.new JointType.revolute none none

-- ---------------------------------------------------------------------------
-- Claim theorems
-- ---------------------------------------------------------------------------

/-- C1: for every DH row and every joint array covering its joint index,
`get_row_trans_mat` is `Translate(a,0,0) · RotateX(alpha) · Translate(0,0,d_total)
· RotateZ(theta_total)`, where a fixed row uses the stored `theta`/`d`
unmodified, a revolute-joint row adds the joint position to `theta`, and a
prismatic-joint row adds it to `d`. -/
theorem C1_get_row_trans_mat_decomposition {J : ℕ} (row : DHRow) (joints : Fin J → Joint) :
    (row.fixed_frame = true →
      row.get_row_trans_mat joints =
        translateX row.a * rotateX row.alpha * translateZ row.d * rotateZ row.theta) ∧
    (∀ k, ∀ hk : k < J, row.joint_index = some k → row.fixed_frame = false →
      ((joints ⟨k, hk⟩).joint_type = JointType.revolute →
        row.get_row_trans_mat joints =
          translateX row.a * rotateX row.alpha * translateZ row.d *
            rotateZ (row.theta + (joints ⟨k, hk⟩).position)) ∧
      ((joints ⟨k, hk⟩).joint_type = JointType.prismatic →
        row.get_row_trans_mat joints =
          translateX row.a * rotateX row.alpha *
            translateZ (row.d + (joints ⟨k, hk⟩).position) * rotateZ row.theta)) := by
  constructor
  · intro hf
    rw [dh_row_matrix_eq_decomposition]
    simp [DHRow.get_row_trans_mat, DHRow.thetaTotal, DHRow.dTotal, hf]
  · intro k hk hidx hf
    have href : row.refJoint joints = joints ⟨k, hk⟩ := by
      simp [DHRow.refJoint, jointAt, hidx, hk]
    constructor
    · intro ht
      rw [dh_row_matrix_eq_decomposition]
      simp [DHRow.get_row_trans_mat, DHRow.thetaTotal, DHRow.dTotal, hf, href, ht]
    · intro ht
      rw [dh_row_matrix_eq_decomposition]
      simp [DHRow.get_row_trans_mat, DHRow.thetaTotal, DHRow.dTotal, hf, href, ht]

/-- Witness for C1 at a concrete revolute row with one joint. -/
theorem C1_get_row_trans_mat_decomposition_witness :
    (DHRow.new 1 0 2 0 false (some 0)).get_row_trans_mat
        (fun _ : Fin 1 => Joint.new JointType.revolute none none) =
      translateX (DHRow.new 1 0 2 0 false (some 0)).a *
        rotateX (DHRow.new 1 0 2 0 false (some 0)).alpha *
        translateZ (DHRow.new 1 0 2 0 false (some 0)).d *
        rotateZ ((DHRow.new 1 0 2 0 false (some 0)).theta +
          (Joint.new JointType.revolute none none).position) :=
  ((C1_get_row_trans_mat_decomposition (DHRow.new 1 0 2 0 false (some 0))
      (fun _ => Joint.new JointType.revolute none none)).2
    0 (by norm_num) rfl rfl).1 rfl

/-- C8 counterexample: contrary to the claim, `DHTable::new` does construct a
zero-frame table — the `F = 0` call succeeds and returns the (empty) row
array unchanged; there is no rejection at construction. -/
theorem C8_new_accepts_empty_chain :
    DHTable.new (F := 0) (J := 0) (fun i => i.elim0) =
      { rows := fun i => i.elim0 } := rfl

/-- C8 amended: `DHTable::new` performs no validation at all — for every `F`
(including `F = 0`) it returns the table holding the given rows. -/
theorem C8_new_no_validation {F J : ℕ} (rows : Fin F → DHRow) :
    DHTable.new (J := J) rows = { rows := rows } := rfl

/-- `set_position` does not change `limit_min`. -/
theorem Joint.set_position_limit_min (j : Joint) (pos : ℝ) :
    (j.set_position pos).limit_min = j.limit_min := rfl

/-- `set_position` does not change `limit_max`. -/
theorem Joint.set_position_limit_max (j : Joint) (pos : ℝ) :
    (j.set_position pos).limit_max = j.limit_max := rfl

/-- C9 counterexample: `Joint::new` does NOT clamp — a revolute joint created
with limits `[2°, 3°]` has position `0`, strictly below the stored lower
limit, so the claimed invariant fails already at construction. -/
theorem C9_new_violates_limits :
    ¬ (Joint.new JointType.revolute (some 2) (some 3)).withinLimits := by
  intro h
  have hmem : toRadians 2 ∈ (Joint.new JointType.revolute (some 2) (some 3)).limit_min := by
    simp [Joint.new]
  have hmem' : toRadians 3 ∈ (Joint.new JointType.revolute (some 2) (some 3)).limit_max := by
    simp [Joint.new]
  have h2 := (h _ hmem _ hmem').1
  have hp : (Joint.new JointType.revolute (some 2) (some 3)).position = 0 := rfl
  rw [hp] at h2
  have hpi := Real.pi_pos
  unfold toRadians at h2
  nlinarith

/-- C9 amended: the clamping invariant holds after every `set_position` call
(for any input value and any joint type) provided both limits are set and
`limit_min ≤ limit_max`; it does not hold for `Joint::new`, which leaves the
initial position `0` unclamped. -/
theorem C9_set_position_clamps (j : Joint) (pos mn mx : ℝ)
    (hmn : j.limit_min = some mn) (hmx : j.limit_max = some mx) (hle : mn ≤ mx) :
    (j.set_position pos).withinLimits := by
  intro mn' h1 mx' h2
  rw [Joint.set_position_limit_min, hmn] at h1
  rw [Joint.set_position_limit_max, hmx] at h2
  obtain rfl := Option.mem_some_iff.mp h1
  obtain rfl := Option.mem_some_iff.mp h2
  simp only [Joint.set_position, hmn, hmx]
  split_ifs <;> constructor <;> linarith

/-- Witness for the amended C9: a prismatic joint with limits `[0, 1]` and a
commanded position of `7` ends up inside its limits. -/
theorem C9_set_position_clamps_witness :
    ((⟨JointType.prismatic, 5, 0, some 0, some 1⟩ : Joint).set_position 7).withinLimits :=
  C9_set_position_clamps _ 7 0 1 rfl rfl (by norm_num)

-- ---------------------------------------------------------------------------
-- Homogeneous-transform structure lemmas (for C10)
-- ---------------------------------------------------------------------------

/-- A 4×4 matrix whose bottom row is `(0,0,0,1)` (that of the identity). -/
def affineRow (m : Mat4) : Prop := ∀ j : Fin 4, m 3 j = (1 : Mat4) 3 j

/-- Every DH row matrix has bottom row `(0,0,0,1)`. -/
theorem affineRow_dh_row_matrix (a alpha d theta : ℝ) :
    affineRow (dh_row_matrix a alpha d theta) := by
  intro j
  fin_cases j <;> simp [dh_row_matrix, Matrix.one_apply]

/-- The identity has bottom row `(0,0,0,1)`. -/
theorem affineRow_one : affineRow (1 : Mat4) := fun _ => rfl

/-- `affineRow` is closed under products. -/
theorem affineRow_mul {A B : Mat4} (hA : affineRow A) (hB : affineRow B) :
    affineRow (A * B) := by
  intro j
  have h1 : (A * B) 3 j = ∑ k, (1 : Mat4) 3 k * B k j := by
    rw [Matrix.mul_apply]
    exact Finset.sum_congr rfl fun k _ => by rw [hA k]
  rw [h1, ← Matrix.mul_apply, one_mul]
  exact hB j

/-- `affineRow` is closed under list products. -/
theorem affineRow_prod {l : List Mat4} (h : ∀ m ∈ l, affineRow m) :
    affineRow l.prod := by
  induction l with
  | nil => simpa using affineRow_one
  | cons x xs ih =>
    rw [List.prod_cons]
    exact affineRow_mul (h x (by simp)) (ih fun m hm => h m (by simp [hm]))

/-- `Pose::from_homogeneous` is injective on matrices with bottom row
`(0,0,0,1)`. -/
theorem from_homogeneous_inj {A B : Mat4} (hA : affineRow A) (hB : affineRow B)
    (h : Pose.from_homogeneous A = Pose.from_homogeneous B) : A = B := by
  have hpos := congrArg Pose.position h
  have hrot := congrArg Pose.rotation h
  have hr : ∀ i j : Fin 3, A i.castSucc j.castSucc = B i.castSucc j.castSucc :=
    fun i j => congrFun (congrFun hrot i) j
  have hp : ∀ i : Fin 3, A i.castSucc 3 = B i.castSucc 3 := fun i => congrFun hpos i
  ext i j
  fin_cases i <;> fin_cases j <;>
    first
      | exact hr 0 0 | exact hr 0 1 | exact hr 0 2 | exact hp 0
      | exact hr 1 0 | exact hr 1 1 | exact hr 1 2 | exact hp 1
      | exact hr 2 0 | exact hr 2 1 | exact hr 2 2 | exact hp 2
      | exact (hA _).trans ((hB _).symm)

/-- Explicit right inverse of a DH row matrix (rigid-transform inverse). -/
theorem dh_row_matrix_mul_inverse (a alpha d theta : ℝ) :
    dh_row_matrix a alpha d theta *
      !![Real.cos theta, Real.cos alpha * Real.sin theta,
           Real.sin alpha * Real.sin theta, -(a * Real.cos theta);
         -Real.sin theta, Real.cos alpha * Real.cos theta,
           Real.sin alpha * Real.cos theta, a * Real.sin theta;
         0, -Real.sin alpha, Real.cos alpha, -d;
         0, 0, 0, 1] = 1 := by
  have hth := Real.sin_sq_add_cos_sq theta
  have hal := Real.sin_sq_add_cos_sq alpha
  rw [dh_row_matrix, mul_fin_four]
  ext i j
  fin_cases i <;> fin_cases j <;> simp [Matrix.one_apply] <;>
    first
      | linear_combination hth
      | linear_combination (-a) * hth
      | linear_combination (Real.cos alpha) ^ 2 * hth + hal
      | linear_combination (Real.sin alpha) ^ 2 * hth + hal
      | linear_combination (Real.cos alpha * Real.sin alpha) * hth
      | linear_combination hal
      | ring

/-- Every DH row matrix is invertible. -/
theorem isUnit_dh_row_matrix (a alpha d theta : ℝ) :
    IsUnit (dh_row_matrix a alpha d theta) :=
  (Matrix.isUnit_iff_isUnit_det _).mpr
    (Matrix.isUnit_det_of_right_inverse (dh_row_matrix_mul_inverse a alpha d theta))

/-- `rowMats` has one entry per frame. -/
theorem DHTable.length_rowMats {F J : ℕ} (t : DHTable F J) (joints : Fin J → Joint) :
    (t.rowMats joints).length = F := by
  simp [DHTable.rowMats]

/-- One step of the cumulative product. -/
theorem DHTable.prefixTransform_succ {F J : ℕ} (t : DHTable F J)
    (joints : Fin J → Joint) (n : ℕ) (h : n < F) :
    t.prefixTransform joints (n + 1) =
      t.prefixTransform joints n * (t.rows ⟨n, h⟩).get_row_trans_mat joints := by
  unfold DHTable.prefixTransform
  rw [List.prod_take_succ _ n (by simp [DHTable.rowMats, h])]
  congr 1
  simp [DHTable.rowMats]

/-- Every matrix in `rowMats` has bottom row `(0,0,0,1)` and is invertible. -/
theorem DHTable.mem_rowMats_props {F J : ℕ} (t : DHTable F J)
    (joints : Fin J → Joint) : ∀ m ∈ t.rowMats joints, affineRow m ∧ IsUnit m := by
  intro m hm
  obtain ⟨i, -, rfl⟩ := List.mem_map.mp hm
  exact ⟨affineRow_dh_row_matrix _ _ _ _, isUnit_dh_row_matrix _ _ _ _⟩

/-- Every prefix product of the chain has bottom row `(0,0,0,1)`. -/
theorem DHTable.affineRow_prefixTransform {F J : ℕ} (t : DHTable F J)
    (joints : Fin J → Joint) (n : ℕ) : affineRow (t.prefixTransform joints n) :=
  affineRow_prod fun m hm =>
    (t.mem_rowMats_props joints m (List.take_subset _ _ hm)).1

/-- Every prefix product of the chain is invertible. -/
theorem DHTable.isUnit_prefixTransform {F J : ℕ} (t : DHTable F J)
    (joints : Fin J → Joint) (n : ℕ) : IsUnit (t.prefixTransform joints n) :=
  List.prod_isUnit fun m hm =>
    (t.mem_rowMats_props joints m (List.take_subset _ _ hm)).2

/-- C10: `get_frame_pose i` excludes row `i`: it equals `all_poses[i-1]` for
`1 ≤ i < F`; and for a non-empty chain the controller's wrist pose
`get_frame_pose (F-1)` coincides with the Jacobian's end-effector pose
`all_poses[F-1]` exactly when row `F-1`'s transform is the identity. -/
theorem C10_get_frame_pose_excludes_row {F J : ℕ} (t : DHTable F J)
    (joints : Fin J → Joint) :
    (∀ i : ℕ, 1 ≤ i → ∀ h2 : i < F,
      t.get_frame_pose i joints = t.all_poses joints ⟨i - 1, by omega⟩) ∧
    (∀ hF : 0 < F,
      (t.get_frame_pose (F - 1) joints = t.all_poses joints ⟨F - 1, by omega⟩ ↔
        (t.rows ⟨F - 1, by omega⟩).get_row_trans_mat joints = 1)) := by
  constructor
  · intro i h1 h2
    have hn : i - 1 + 1 = i := by omega
    show Pose.from_homogeneous (t.prefixTransform joints i) =
      Pose.from_homogeneous (t.prefixTransform joints (i - 1 + 1))
    rw [hn]
  · intro hF
    have hstep := t.prefixTransform_succ joints (F - 1) (by omega)
    constructor
    · intro he
      have he' : Pose.from_homogeneous (t.prefixTransform joints (F - 1)) =
          Pose.from_homogeneous (t.prefixTransform joints (F - 1 + 1)) := he
      have hm := from_homogeneous_inj (t.affineRow_prefixTransform joints (F - 1))
        (t.affineRow_prefixTransform joints (F - 1 + 1)) he'
      rw [hstep] at hm
      exact ((t.isUnit_prefixTransform joints (F - 1)).mul_left_cancel
        (by rw [mul_one]; exact hm)).symm
    · intro hM
      show Pose.from_homogeneous (t.prefixTransform joints (F - 1)) =
        Pose.from_homogeneous (t.prefixTransform joints (F - 1 + 1))
      rw [hstep, hM, mul_one]

/-- Witness for C10 on the URT table: `get_frame_pose 1` equals
`all_poses[0]`. -/
theorem C10_get_frame_pose_excludes_row_witness :
    urtTable.get_frame_pose 1 urtJoints =
      urtTable.all_poses urtJoints ⟨0, by norm_num⟩ :=
  (C10_get_frame_pose_excludes_row urtTable urtJoints).1 1 (by norm_num) (by norm_num)

-- ---------------------------------------------------------------------------
-- C3 / C4: the damped pseudo-inverse
-- ---------------------------------------------------------------------------

/-- Adding `λ²` on the diagonal of `J*Jᵀ` is adding `λ² • I`. -/
theorem dampedInnerR_eq {J : ℕ} (j : Matrix (Fin 6) (Fin J) ℝ) (l2 : ℝ) :
    dampedInnerR j l2 = j * jᵀ + l2 • (1 : Matrix (Fin 6) (Fin 6) ℝ) := by
  ext i k
  by_cases h : i = k <;>
    simp [dampedInnerR, Matrix.add_apply, Matrix.smul_apply, Matrix.one_apply, h]

/-- Adding `λ²` on the diagonal of `Jᵀ*J` is adding `λ² • I`. -/
theorem dampedInnerL_eq {J : ℕ} (j : Matrix (Fin 6) (Fin J) ℝ) (l2 : ℝ) :
    dampedInnerL j l2 = jᵀ * j + l2 • (1 : Matrix (Fin J) (Fin J) ℝ) := by
  ext i k
  by_cases h : i = k <;>
    simp [dampedInnerL, Matrix.add_apply, Matrix.smul_apply, Matrix.one_apply, h]

/-- `tryInverse` succeeds on matrices with unit determinant. -/
theorem tryInverse_of_isUnit {n : ℕ} (m : Matrix (Fin n) (Fin n) ℝ)
    (h : IsUnit m.det) : tryInverse m = some m⁻¹ := by
  unfold tryInverse
  exact if_pos h

/-- `tryInverse` fails on matrices with non-unit determinant. -/
theorem tryInverse_of_not_isUnit {n : ℕ} (m : Matrix (Fin n) (Fin n) ℝ)
    (h : ¬ IsUnit m.det) : tryInverse m = none := by
  unfold tryInverse
  exact if_neg h

/-- Unfolding of the pseudo-inverse body (definitional). -/
theorem dmpi_unfold {F J : ℕ} (t : DHTable F J) (joints : Fin J → Joint)
    (maybe_j : Option (Matrix (Fin 6) (Fin J) ℝ)) (lambda : Option ℝ) :
    t.damped_moore_penrose_pseudo_inverse joints maybe_j lambda =
      (fun jm =>
        if 6 ≤ J then
          (match tryInverse (dampedInnerR jm ((lambda.getD 1e-4) ^ 2)) with
            | some inv => jmᵀ * inv
            | none => 0)
        else
          (match tryInverse (dampedInnerL jm ((lambda.getD 1e-4) ^ 2)) with
            | some inv => inv * jmᵀ
            | none => 0))
        (maybe_j.getD (t.compute_jacobian joints)) := by
  cases maybe_j <;> rfl

/-- C3: with damping `λ` (defaulting to `1e-4`) and an invertible damped Gram
matrix, the pseudo-inverse is `Jᵀ(JJᵀ + λ²I₆)⁻¹` for `J ≥ 6` joints and
`(JᵀJ + λ²I_J)⁻¹Jᵀ` for `J < 6` joints — the smaller Gram matrix is the one
inverted in each branch. -/
theorem C3_damped_pseudo_inverse_formula {F J : ℕ} (t : DHTable F J)
    (joints : Fin J → Joint) (jm : Matrix (Fin 6) (Fin J) ℝ) (lambda : Option ℝ) :
    (6 ≤ J →
      IsUnit (jm * jmᵀ + (lambda.getD 1e-4) ^ 2 • (1 : Matrix (Fin 6) (Fin 6) ℝ)).det →
      t.damped_moore_penrose_pseudo_inverse joints (some jm) lambda =
        jmᵀ * (jm * jmᵀ + (lambda.getD 1e-4) ^ 2 • (1 : Matrix (Fin 6) (Fin 6) ℝ))⁻¹) ∧
    (J < 6 →
      IsUnit (jmᵀ * jm + (lambda.getD 1e-4) ^ 2 • (1 : Matrix (Fin J) (Fin J) ℝ)).det →
      t.damped_moore_penrose_pseudo_inverse joints (some jm) lambda =
        (jmᵀ * jm + (lambda.getD 1e-4) ^ 2 • (1 : Matrix (Fin J) (Fin J) ℝ))⁻¹ * jmᵀ) := by
  constructor
  · intro h6 hu
    rw [dmpi_unfold]
    simp only [Option.getD_some]
    rw [if_pos h6, dampedInnerR_eq, tryInverse_of_isUnit _ hu]
  · intro h6 hu
    rw [dmpi_unfold]
    simp only [Option.getD_some]
    rw [if_neg (by omega : ¬ 6 ≤ J), dampedInnerL_eq, tryInverse_of_isUnit _ hu]

/-- A 1-frame, 1-joint table used only to witness the under-actuated branch. -/
def tinyTable : DHTable 1 1 :=
  DHTable.new ![DHRow.new 0 0 0 0 false (some 0)]

/-- Witness for C3 on the `J < 6` branch with a zero Jacobian and `λ = 1`. -/
theorem C3_damped_pseudo_inverse_formula_witness :
    tinyTable.damped_moore_penrose_pseudo_inverse (fun _ => default)
        (some (0 : Matrix (Fin 6) (Fin 1) ℝ)) (some 1) =
      ((0 : Matrix (Fin 6) (Fin 1) ℝ)ᵀ * (0 : Matrix (Fin 6) (Fin 1) ℝ) +
        ((some (1 : ℝ)).getD 1e-4) ^ 2 • (1 : Matrix (Fin 1) (Fin 1) ℝ))⁻¹ *
        (0 : Matrix (Fin 6) (Fin 1) ℝ)ᵀ :=
  (C3_damped_pseudo_inverse_formula tinyTable (fun _ => default) 0 (some 1)).2
    (by norm_num)
    (by
      norm_num [Matrix.transpose_zero, Matrix.zero_mul, Matrix.det_one])

/-- C4: whenever the damped Gram matrix of the active branch is singular,
`damped_moore_penrose_pseudo_inverse` returns the all-zero J×6 matrix instead
of aborting (the accompanying warning is a print side effect, not modelled);
the function is total, hence never panics. -/
theorem C4_damped_pseudo_inverse_zero_fallback {F J : ℕ} (t : DHTable F J)
    (joints : Fin J → Joint) (maybe_j : Option (Matrix (Fin 6) (Fin J) ℝ))
    (lambda : Option ℝ) :
    (6 ≤ J →
      ¬ IsUnit (dampedInnerR (maybe_j.getD (t.compute_jacobian joints))
          ((lambda.getD 1e-4) ^ 2)).det →
      t.damped_moore_penrose_pseudo_inverse joints maybe_j lambda = 0) ∧
    (J < 6 →
      ¬ IsUnit (dampedInnerL (maybe_j.getD (t.compute_jacobian joints))
          ((lambda.getD 1e-4) ^ 2)).det →
      t.damped_moore_penrose_pseudo_inverse joints maybe_j lambda = 0) := by
  constructor
  · intro h6 hu
    rw [dmpi_unfold]
    simp only []
    rw [if_pos h6, tryInverse_of_not_isUnit _ hu]
  · intro h6 hu
    rw [dmpi_unfold]
    simp only []
    rw [if_neg (by omega : ¬ 6 ≤ J), tryInverse_of_not_isUnit _ hu]

/-- Witness for C4 on the URT table (6 joints): a zero Jacobian with zero
damping produces a singular damped matrix, and the pseudo-inverse returned is
the zero matrix. -/
theorem C4_damped_pseudo_inverse_zero_fallback_witness :
    urtTable.damped_moore_penrose_pseudo_inverse urtJoints
      (some (0 : Matrix (Fin 6) (Fin 6) ℝ)) (some 0) = 0 :=
  (C4_damped_pseudo_inverse_zero_fallback urtTable urtJoints (some 0) (some 0)).1
    (by norm_num)
    (by
      norm_num [dampedInnerR_eq, Option.getD_some, Matrix.transpose_zero,
        Matrix.zero_mul, Matrix.det_zero])

-- ---------------------------------------------------------------------------
-- C2: the geometric Jacobian columns
-- ---------------------------------------------------------------------------

/-- The Jacobian column stated by the spec: `(z × (p_end − p_i), z)` for a
revolute joint, `(z, 0)` for a prismatic joint. -/
def jacobianColumnSpec (jt : JointType) (z p_i p_end : Vec3) : Fin 6 → ℝ :=
  fun r =>
    if hr : (r : ℕ) < 3 then
      (match jt with
        | JointType.revolute => cross3 z (fun m => p_end m - p_i m)
        | JointType.prismatic => z) ⟨r, hr⟩
    else
      (match jt with
        | JointType.revolute => z
        | JointType.prismatic => fun _ => 0) ⟨(r : ℕ) - 3, by omega⟩

/-- Row `i` does not write column `c` when it is fixed or references another
joint index. -/
theorem DHTable.jacStep_other {F J : ℕ} (t : DHTable F J) (joints : Fin J → Joint)
    (poses : Fin F → Pose) (p_end : Vec3) (m : Matrix (Fin 6) (Fin J) ℝ)
    (i : Fin F) (c : Fin J)
    (h : (t.rows i).fixed_frame = true ∨ (t.rows i).joint_index.getD 0 ≠ (c : ℕ))
    (r : Fin 6) :
    t.jacStep joints poses p_end m i r c = m r c := by
  unfold DHTable.jacStep
  rcases h with h | h
  · rw [if_pos h]
  · by_cases hf : (t.rows i).fixed_frame
    · rw [if_pos hf]
    · rw [if_neg hf]
      by_cases hk : (t.rows i).joint_index.getD 0 < J
      · rw [dif_pos hk]
        have hc : ¬ c = (⟨(t.rows i).joint_index.getD 0, hk⟩ : Fin J) := by
          intro he
          exact h (by rw [he])
        simp only [Matrix.of_apply]
        rw [if_neg hc]
      · rw [dif_neg hk]

/-- Row `i` writes the spec column into column `c` when it is joint-bearing
and references joint `c`. -/
theorem DHTable.jacStep_write {F J : ℕ} (t : DHTable F J) (joints : Fin J → Joint)
    (poses : Fin F → Pose) (p_end : Vec3) (m : Matrix (Fin 6) (Fin J) ℝ)
    (i : Fin F) (c : Fin J)
    (hf : (t.rows i).fixed_frame = false)
    (hk : (t.rows i).joint_index.getD 0 = (c : ℕ)) (r : Fin 6) :
    t.jacStep joints poses p_end m i r c =
      jacobianColumnSpec (joints c).joint_type (poses i).z_axis
        (poses i).position p_end r := by
  unfold DHTable.jacStep
  rw [if_neg (by simp [hf]), dif_pos (by omega : (t.rows i).joint_index.getD 0 < J)]
  have hceq : c = (⟨(t.rows i).joint_index.getD 0, by omega⟩ : Fin J) :=
    Fin.ext hk.symm
  simp only [Matrix.of_apply]
  rw [if_pos hceq]
  rw [← hceq]
  unfold jacobianColumnSpec
  by_cases hr : (r : ℕ) < 3 <;> rfl

/-- Folding over rows that do not write column `c` leaves it unchanged. -/
theorem DHTable.foldl_jacStep_untouched {F J : ℕ} (t : DHTable F J)
    (joints : Fin J → Joint) (poses : Fin F → Pose) (p_end : Vec3) (c : Fin J)
    (l : List (Fin F))
    (hl : ∀ i ∈ l, (t.rows i).fixed_frame = true ∨
      (t.rows i).joint_index.getD 0 ≠ (c : ℕ)) :
    ∀ m : Matrix (Fin 6) (Fin J) ℝ, ∀ r : Fin 6,
      (l.foldl (t.jacStep joints poses p_end) m) r c = m r c := by
  induction l with
  | nil => intro m r; rfl
  | cons j l' ih =>
    intro m r
    rw [List.foldl_cons, ih (fun i hi => hl i (by simp [hi]))]
    exact t.jacStep_other joints poses p_end m j c (hl j (by simp)) r

/-- Once column `c` holds the spec column, folding over rows that either
rewrite it identically (`= i`) or do not touch it preserves it. -/
theorem DHTable.foldl_jacStep_preserve {F J : ℕ} (t : DHTable F J)
    (joints : Fin J → Joint) (poses : Fin F → Pose) (p_end : Vec3) (c : Fin J)
    (i : Fin F) (hf : (t.rows i).fixed_frame = false)
    (hk : (t.rows i).joint_index.getD 0 = (c : ℕ))
    (l : List (Fin F))
    (hl : ∀ i' ∈ l, i' = i ∨ (t.rows i').fixed_frame = true ∨
      (t.rows i').joint_index.getD 0 ≠ (c : ℕ)) :
    ∀ m : Matrix (Fin 6) (Fin J) ℝ,
      (∀ r, m r c = jacobianColumnSpec (joints c).joint_type (poses i).z_axis
        (poses i).position p_end r) →
      ∀ r : Fin 6, (l.foldl (t.jacStep joints poses p_end) m) r c =
        jacobianColumnSpec (joints c).joint_type (poses i).z_axis
          (poses i).position p_end r := by
  induction l with
  | nil => intro m hm r; exact hm r
  | cons j l' ih =>
    intro m hm r
    rw [List.foldl_cons]
    refine ih (fun i' hi' => hl i' (by simp [hi'])) _ ?_ r
    intro r'
    rcases hl j (by simp) with hj | hj
    · subst hj
      exact t.jacStep_write joints poses p_end m j c hf hk r'
    · rw [t.jacStep_other joints poses p_end m j c hj r']
      exact hm r'

/-- After processing a list containing a row `i` that writes column `c`, with
every other listed row not touching `c`, column `c` holds the spec column. -/
theorem DHTable.foldl_jacStep_writes {F J : ℕ} (t : DHTable F J)
    (joints : Fin J → Joint) (poses : Fin F → Pose) (p_end : Vec3) (c : Fin J)
    (i : Fin F) (hf : (t.rows i).fixed_frame = false)
    (hk : (t.rows i).joint_index.getD 0 = (c : ℕ))
    (l : List (Fin F)) (hi : i ∈ l)
    (hl : ∀ i' ∈ l, i' ≠ i → (t.rows i').fixed_frame = true ∨
      (t.rows i').joint_index.getD 0 ≠ (c : ℕ)) :
    ∀ m : Matrix (Fin 6) (Fin J) ℝ, ∀ r : Fin 6,
      (l.foldl (t.jacStep joints poses p_end) m) r c =
        jacobianColumnSpec (joints c).joint_type (poses i).z_axis
          (poses i).position p_end r := by
  induction l with
  | nil => cases hi
  | cons j l' ih =>
    intro m r
    rw [List.foldl_cons]
    by_cases hj : j = i
    · subst hj
      refine t.foldl_jacStep_preserve joints poses p_end c j hf hk l'
        (fun i' hi' => by
          by_cases h' : i' = j
          · exact Or.inl h'
          · exact Or.inr (hl i' (by simp [hi']) h')) _ ?_ r
      intro r'
      exact t.jacStep_write joints poses p_end m j c hf hk r'
    · have hi' : i ∈ l' := by
        rcases List.mem_cons.mp hi with h | h
        · exact absurd h.symm hj
        · exact h
      refine ih hi' (fun i'' hi'' hne => hl i'' (by simp [hi'']) hne) _ r

/-- With a non-empty chain, `pEnd` is the last entry of `all_poses`. -/
theorem DHTable.pEnd_eq {F J : ℕ} (t : DHTable F J) (joints : Fin J → Joint)
    (hF : 0 < F) :
    t.pEnd joints = (t.all_poses joints ⟨F - 1, by omega⟩).position := by
  unfold DHTable.pEnd
  rw [dif_pos hF]

/-- C2: over a non-empty chain whose joint-bearing rows reference valid,
pairwise-distinct joint indices, `compute_jacobian` puts
`(z_i × (p_end − p_i), z_i)` (revolute) or `(z_i, 0)` (prismatic) into the
column of each joint-bearing row `i`, with `z_i`/`p_i` taken from
`all_poses[i]` and `p_end` from `all_poses[F-1]`; columns referenced by no
row stay zero. -/
theorem C2_compute_jacobian_columns {F J : ℕ} (t : DHTable F J)
    (joints : Fin J → Joint) (hF : 0 < F)
    (hvalid : ∀ i : Fin F, (t.rows i).fixed_frame = false →
      ∃ k, (t.rows i).joint_index = some k ∧ k < J)
    (hinj : ∀ i i' : Fin F, (t.rows i).fixed_frame = false →
      (t.rows i').fixed_frame = false →
      (t.rows i).joint_index = (t.rows i').joint_index → i = i') :
    (∀ i : Fin F, ∀ k : ℕ, (t.rows i).fixed_frame = false →
      (t.rows i).joint_index = some k → ∀ hk : k < J, ∀ r : Fin 6,
      t.compute_jacobian joints r ⟨k, hk⟩ =
        jacobianColumnSpec (joints ⟨k, hk⟩).joint_type
          ((t.all_poses joints i).z_axis) ((t.all_poses joints i).position)
          ((t.all_poses joints ⟨F - 1, by omega⟩).position) r) ∧
    (∀ c : Fin J,
      (∀ i : Fin F, (t.rows i).fixed_frame = false →
        (t.rows i).joint_index ≠ some (c : ℕ)) →
      ∀ r : Fin 6, t.compute_jacobian joints r c = 0) := by
  constructor
  · intro i k hf hidx hk r
    have hgetd : (t.rows i).joint_index.getD 0 = ((⟨k, hk⟩ : Fin J) : ℕ) := by
      rw [hidx]; rfl
    have h := t.foldl_jacStep_writes joints (t.all_poses joints) (t.pEnd joints)
      ⟨k, hk⟩ i hf hgetd (List.finRange F) (List.mem_finRange i)
      (fun i' _ hne => by
        by_cases hf' : (t.rows i').fixed_frame
        · exact Or.inl hf'
        · refine Or.inr fun hgd => hne ?_
          obtain ⟨k', hidx', hk'⟩ := hvalid i' (by simp [hf'])
          refine hinj i' i (by simp [hf']) hf ?_
          rw [hidx', hidx]
          rw [hidx'] at hgd
          simp only [Option.getD_some] at hgd
          rw [hgd])
      0 r
    rw [DHTable.compute_jacobian, h, t.pEnd_eq joints hF]
  · intro c hc r
    have h := t.foldl_jacStep_untouched joints (t.all_poses joints)
      (t.pEnd joints) c (List.finRange F)
      (fun i _ => by
        by_cases hf' : (t.rows i).fixed_frame
        · exact Or.inl hf'
        · refine Or.inr fun hgd => ?_
          obtain ⟨k', hidx', hk'⟩ := hvalid i (by simp [hf'])
          refine hc i (by simp [hf']) ?_
          rw [hidx'] at hgd ⊢
          simp only [Option.getD_some] at hgd
          rw [hgd])
      0 r
    rw [DHTable.compute_jacobian, h]
    rfl

/-- Witness for C2 on the one-revolute-joint table `tinyTable`, at Jacobian
row 0. -/
theorem C2_compute_jacobian_columns_witness :
    tinyTable.compute_jacobian (fun _ => default) 0 ⟨0, Nat.zero_lt_one⟩ =
      jacobianColumnSpec (default : Joint).joint_type
        ((tinyTable.all_poses (fun _ => default) ⟨0, Nat.zero_lt_one⟩).z_axis)
        ((tinyTable.all_poses (fun _ => default) ⟨0, Nat.zero_lt_one⟩).position)
        ((tinyTable.all_poses (fun _ => default)
          ⟨1 - 1, Nat.zero_lt_one⟩).position) 0 :=
  (C2_compute_jacobian_columns tinyTable (fun _ => default) Nat.zero_lt_one
      (fun i _ => ⟨0, by
        have hi : i = 0 := Subsingleton.elim i 0
        subst hi
        exact ⟨rfl, Nat.zero_lt_one⟩⟩)
      (fun i i' _ _ _ => Subsingleton.elim i i')).1
    ⟨0, Nat.zero_lt_one⟩ 0 rfl rfl Nat.zero_lt_one 0

-- ---------------------------------------------------------------------------
-- C5: the URT IK solver's error surface
-- ---------------------------------------------------------------------------

/-- `Result::is_ok` for the solver's return value. -/
def exceptOk {ε α : Type} : Except ε α → Bool
  | Except.ok _ => true
  | Except.error _ => false

/-- With five link lengths, `solve_ik` succeeds exactly when the law-of-cosines
argument `cos_theta3` has magnitude at most 1 (the non-finiteness guards can
never fire over `ℝ`). -/
theorem solve_ik_isOk_iff (x y z : ℝ) (r : Mat3) (l1 l2 l3 l4 l5 : ℝ) :
    exceptOk (UrtIkSolver.solve_ik x y z r [l1, l2, l3, l4, l5]) = true ↔
      |cosTheta3 x y z r l1 l2 l3 l4 l5| ≤ 1 := by
  simp only [UrtIkSolver.solve_ik]
  by_cases hc : 1 < |cosTheta3 x y z r l1 l2 l3 l4 l5|
  · rw [if_pos hc]
    exact iff_of_false (by simp [exceptOk]) (not_le.mpr hc)
  · rw [if_neg hc, if_neg (by simp [isFinite]), if_neg (by simp [isFinite])]
    exact iff_of_true rfl (not_lt.mp hc)

/-- C5: `solve_ik` errors exactly on (1) a link-length list of length ≠ 5 —
before any computation, (2) `|cos θ3| > 1` — in particular whenever the wrist
center is farther than `l2 + l3` from the shoulder point `(0, 0, l1)`, and
(3) a non-finite intermediate angle — vacuous over `ℝ`; otherwise it returns
`Ok` with six angles. -/
theorem C5_solve_ik_error_conditions (x y z : ℝ) (r : Mat3) :
    (∀ links : List ℝ, links.length ≠ 5 →
      exceptOk (UrtIkSolver.solve_ik x y z r links) = false) ∧
    (∀ l1 l2 l3 l4 l5 : ℝ,
      (exceptOk (UrtIkSolver.solve_ik x y z r [l1, l2, l3, l4, l5]) = true ↔
        |cosTheta3 x y z r l1 l2 l3 l4 l5| ≤ 1)) ∧
    (∀ l1 l2 l3 l4 l5 : ℝ, 0 < l2 → 0 < l3 →
      (l2 + l3) ^ 2 <
        (x - (l4 + l5) * r 0 2) ^ 2 + (y - (l4 + l5) * r 1 2) ^ 2 +
          ((z - (l4 + l5) * r 2 2) - l1) ^ 2 →
      exceptOk (UrtIkSolver.solve_ik x y z r [l1, l2, l3, l4, l5]) = false) := by
  refine ⟨?_, fun l1 l2 l3 l4 l5 => solve_ik_isOk_iff x y z r l1 l2 l3 l4 l5, ?_⟩
  · intro links hlen
    rcases links with _ | ⟨a, _ | ⟨b, _ | ⟨c, _ | ⟨d, _ | ⟨e, _ | ⟨f, rest⟩⟩⟩⟩⟩⟩
    · rfl
    · rfl
    · rfl
    · rfl
    · rfl
    · exact absurd rfl hlen
    · rfl
  · intro l1 l2 l3 l4 l5 hl2 hl3 hdist
    have hc : 1 < cosTheta3 x y z r l1 l2 l3 l4 l5 := by
      unfold cosTheta3
      simp only []
      rw [Real.sq_sqrt (by positivity), lt_div_iff₀ (by positivity)]
      nlinarith [hdist]
    have hiff := solve_ik_isOk_iff x y z r l1 l2 l3 l4 l5
    cases hb : exceptOk (UrtIkSolver.solve_ik x y z r [l1, l2, l3, l4, l5])
    · rfl
    · exact absurd (hiff.mp hb)
        (not_le.mpr (lt_of_lt_of_le hc (le_abs_self _)))

/-- Witness for C5: a target 10 units above the base with unit links
`l2 = l3 = 1` (reach 2) is rejected, and the reachability characterisation
holds there. -/
theorem C5_solve_ik_error_conditions_witness :
    exceptOk (UrtIkSolver.solve_ik 0 0 10 1 [0, 1, 1, 0, 0]) = false :=
  (C5_solve_ik_error_conditions 0 0 10 1).2.2 0 1 1 0 0 (by norm_num) (by norm_num)
    (by norm_num [Matrix.one_apply])

-- ---------------------------------------------------------------------------
-- C6: hold/track state machine of the controller
-- ---------------------------------------------------------------------------

/-- A cycle whose commanded linear and angular velocity norms are both at or
below `1e-4` (the angular components as commanded, in degrees/s). -/
def quietCycle {J : ℕ} (cyc : CycleInput J) : Prop :=
  vnorm ![cyc.xd_des_arr 0, cyc.xd_des_arr 1, cyc.xd_des_arr 2] ≤ 1e-4 ∧
  vnorm ![cyc.xd_des_arr 3, cyc.xd_des_arr 4, cyc.xd_des_arr 5] ≤ 1e-4

/-- Norms are nonnegative. -/
theorem vnorm_nonneg (v : Vec3) : 0 ≤ vnorm v := Real.sqrt_nonneg _

/-- Degree-to-radian conversion scales the norm by `π/180`. -/
theorem vnorm_toRadians (a b c : ℝ) :
    vnorm ![toRadians a, toRadians b, toRadians c] =
      Real.pi / 180 * vnorm ![a, b, c] := by
  unfold vnorm toRadians
  simp only [Matrix.cons_val_zero, Matrix.cons_val_one, Matrix.head_cons,
    Matrix.cons_val_succ, Matrix.cons_val_two, Matrix.vecTail, Matrix.vecHead,
    Function.comp]
  rw [show (a * (Real.pi / 180)) ^ 2 + (b * (Real.pi / 180)) ^ 2 +
        (c * (Real.pi / 180)) ^ 2 =
      (Real.pi / 180) ^ 2 * (a ^ 2 + b ^ 2 + c ^ 2) by ring]
  rw [Real.sqrt_mul (by positivity), Real.sqrt_sq (by positivity)]

/-- The converted angular norm does not exceed the commanded one. -/
theorem vnorm_toRadians_le (a b c : ℝ) :
    vnorm ![toRadians a, toRadians b, toRadians c] ≤ vnorm ![a, b, c] := by
  rw [vnorm_toRadians]
  have hb : Real.pi / 180 ≤ 1 := by
    have := Real.pi_le_four
    linarith
  nlinarith [vnorm_nonneg ![a, b, c], hb, Real.pi_pos]

/-- A quiet cycle from a tracking state (`holding = false`) captures the
instantaneous wrist pose and sets `holding`. -/
theorem compute_quiet_capture {F J : ℕ} (svdOrtho : Mat3 → Mat3)
    (c : TaskSpacePidController) (arm : DHArmModel F J) (cyc : CycleInput J)
    (hq : quietCycle cyc) (hold : c.holding = false) :
    ((c.compute svdOrtho arm cyc.xd_des_arr cyc.motor_pos cyc.motor_vels
        cyc.dt).1.holding = true) ∧
    ((c.compute svdOrtho arm cyc.xd_des_arr cyc.motor_pos cyc.motor_vels
        cyc.dt).1.x_ref =
      (((arm.set_joint_positions cyc.motor_pos).set_joint_velocities
        cyc.motor_vels).frame_pose (F - 1)).position) ∧
    ((c.compute svdOrtho arm cyc.xd_des_arr cyc.motor_pos cyc.motor_vels
        cyc.dt).1.r_ref =
      (((arm.set_joint_positions cyc.motor_pos).set_joint_velocities
        cyc.motor_vels).frame_pose (F - 1)).rotation) := by
  have hact : ¬ ((1e-4 : ℝ) <
      vnorm ![cyc.xd_des_arr 0, cyc.xd_des_arr 1, cyc.xd_des_arr 2] ∨
    (1e-4 : ℝ) < vnorm ![toRadians (cyc.xd_des_arr 3),
      toRadians (cyc.xd_des_arr 4), toRadians (cyc.xd_des_arr 5)]) :=
    not_or.mpr ⟨not_lt.mpr hq.1,
      not_lt.mpr (le_trans (vnorm_toRadians_le _ _ _) hq.2)⟩
  simp only [TaskSpacePidController.compute]
  rw [if_neg hact, if_pos hold]
  exact ⟨rfl, rfl, rfl⟩

/-- A quiet cycle from a holding state leaves `holding`, `x_ref` and `r_ref`
exactly unchanged. -/
theorem compute_quiet_hold {F J : ℕ} (svdOrtho : Mat3 → Mat3)
    (c : TaskSpacePidController) (arm : DHArmModel F J) (cyc : CycleInput J)
    (hq : quietCycle cyc) (hold : c.holding = true) :
    ((c.compute svdOrtho arm cyc.xd_des_arr cyc.motor_pos cyc.motor_vels
        cyc.dt).1.holding = true) ∧
    ((c.compute svdOrtho arm cyc.xd_des_arr cyc.motor_pos cyc.motor_vels
        cyc.dt).1.x_ref = c.x_ref) ∧
    ((c.compute svdOrtho arm cyc.xd_des_arr cyc.motor_pos cyc.motor_vels
        cyc.dt).1.r_ref = c.r_ref) := by
  have hact : ¬ ((1e-4 : ℝ) <
      vnorm ![cyc.xd_des_arr 0, cyc.xd_des_arr 1, cyc.xd_des_arr 2] ∨
    (1e-4 : ℝ) < vnorm ![toRadians (cyc.xd_des_arr 3),
      toRadians (cyc.xd_des_arr 4), toRadians (cyc.xd_des_arr 5)]) :=
    not_or.mpr ⟨not_lt.mpr hq.1,
      not_lt.mpr (le_trans (vnorm_toRadians_le _ _ _) hq.2)⟩
  simp only [TaskSpacePidController.compute]
  rw [if_neg hact, if_neg (by rw [hold]; exact fun h => Bool.true_eq_false.mp h)]
  exact ⟨hold, rfl, rfl⟩

/-- Quiet cycles preserve a holding reference through any number of cycles. -/
theorem runCycles_quiet_preserve {F J : ℕ} (svdOrtho : Mat3 → Mat3)
    (l : List (CycleInput J)) (hql : ∀ c' ∈ l, quietCycle c') :
    ∀ (c : TaskSpacePidController) (arm : DHArmModel F J), c.holding = true →
      (runCycles svdOrtho (c, arm) l).1.holding = true ∧
      (runCycles svdOrtho (c, arm) l).1.x_ref = c.x_ref ∧
      (runCycles svdOrtho (c, arm) l).1.r_ref = c.r_ref := by
  induction l with
  | nil => exact fun c arm h => ⟨h, rfl, rfl⟩
  | cons cyc rest ih =>
    intro c arm h
    have hstep := compute_quiet_hold svdOrtho c arm cyc (hql cyc (by simp)) h
    have hrec := ih (fun c' hc' => hql c' (by simp [hc']))
      (c.compute svdOrtho arm cyc.xd_des_arr cyc.motor_pos cyc.motor_vels cyc.dt).1
      (c.compute svdOrtho arm cyc.xd_des_arr cyc.motor_pos cyc.motor_vels cyc.dt).2.1
      hstep.1
    exact ⟨hrec.1, hrec.2.1.trans hstep.2.1, hrec.2.2.trans hstep.2.2⟩

/-- C6: a freshly constructed controller is in tracking state; and from any
tracking state, a sequence of quiet cycles (linear and angular commanded
norms at or below `1e-4`) sets `holding` on the first cycle, captures the
wrist pose of that first cycle as `x_ref`/`r_ref`, and leaves both exactly
unchanged on every subsequent quiet cycle. -/
theorem C6_zero_velocity_holds_reference :
    (∀ kp ki kd : Fin 6 → ℝ, (TaskSpacePidController.new kp ki kd).holding = false) ∧
    (∀ (F J : ℕ) (svdOrtho : Mat3 → Mat3) (c0 : TaskSpacePidController)
      (arm0 : DHArmModel F J) (cyc : CycleInput J) (rest : List (CycleInput J)),
      quietCycle cyc → (∀ c' ∈ rest, quietCycle c') → c0.holding = false →
      (runCycles svdOrtho (c0, arm0) (cyc :: rest)).1.holding = true ∧
      (runCycles svdOrtho (c0, arm0) (cyc :: rest)).1.x_ref =
        (((arm0.set_joint_positions cyc.motor_pos).set_joint_velocities
          cyc.motor_vels).frame_pose (F - 1)).position ∧
      (runCycles svdOrtho (c0, arm0) (cyc :: rest)).1.r_ref =
        (((arm0.set_joint_positions cyc.motor_pos).set_joint_velocities
          cyc.motor_vels).frame_pose (F - 1)).rotation) := by
  constructor
  · intro kp ki kd
    rfl
  · intro F J svdOrtho c0 arm0 cyc rest hq1 hqs h0
    have hstep := compute_quiet_capture svdOrtho c0 arm0 cyc hq1 h0
    have hrec := runCycles_quiet_preserve svdOrtho rest hqs
      (c0.compute svdOrtho arm0 cyc.xd_des_arr cyc.motor_pos cyc.motor_vels cyc.dt).1
      (c0.compute svdOrtho arm0 cyc.xd_des_arr cyc.motor_pos cyc.motor_vels cyc.dt).2.1
      hstep.1
    exact ⟨hrec.1, hrec.2.1.trans hstep.2.1, hrec.2.2.trans hstep.2.2⟩

/-- Witness for C6: one all-zero cycle on the 1-joint arm. -/
theorem C6_zero_velocity_holds_reference_witness :
    (runCycles id
        (TaskSpacePidController.new (fun _ => 0) (fun _ => 0) (fun _ => 0),
          DHArmModel.new tinyTable (fun _ => default) none [])
        [⟨fun _ => 0, fun _ => 0, fun _ => 0, 1⟩]).1.holding = true :=
  ((C6_zero_velocity_holds_reference).2 1 1 id _ _ ⟨fun _ => 0, fun _ => 0, fun _ => 0, 1⟩ []
    (by constructor <;> norm_num [vnorm])
    (fun c' hc' => absurd hc' (List.not_mem_nil c'))
    rfl).1

-- ---------------------------------------------------------------------------
-- C7: forward kinematics of the URT reference robot at zero joint angles
-- ---------------------------------------------------------------------------

theorem toRadians_zero : toRadians 0 = 0 := by unfold toRadians; ring

theorem toRadians_ninety : toRadians 90 = Real.pi / 2 := by unfold toRadians; ring

theorem toRadians_neg_ninety : toRadians (-90) = -(Real.pi / 2) := by
  unfold toRadians; ring

/-- A joint-bearing URT row at zero joint position uses its stored constants
(`theta + 0`). -/
theorem urt_joint_row_mat (a alpha d theta : ℝ) (k : ℕ) (hk : k < 6) :
    (DHRow.new a alpha d theta false (some k)).get_row_trans_mat urtJoints =
      dh_row_matrix a (toRadians alpha) d (toRadians theta + 0) := by
  unfold DHRow.get_row_trans_mat DHRow.thetaTotal DHRow.dTotal DHRow.refJoint
    jointAt DHRow.new urtJoints Joint.new
  simp [hk]

/-- The fixed end-effector row uses its stored constants. -/
theorem urt_fixed_row_mat (a alpha d theta : ℝ) :
    (DHRow.new a alpha d theta true none).get_row_trans_mat urtJoints =
      dh_row_matrix a (toRadians alpha) d (toRadians theta) := by
  unfold DHRow.get_row_trans_mat DHRow.thetaTotal DHRow.dTotal DHRow.new
  simp

theorem urtM0_eval : dh_row_matrix 0 (toRadians 0) 9 (toRadians 0 + 0) =
    !![1, 0, 0, 0; 0, 1, 0, 0; 0, 0, 1, 9; 0, 0, 0, 1] := by
  rw [toRadians_zero]
  ext i j
  fin_cases i <;> fin_cases j <;> norm_num [dh_row_matrix]

theorem urtM1_eval : dh_row_matrix 0 (toRadians (-90)) 0 (toRadians (-90) + 0) =
    !![0, 1, 0, 0; 0, 0, 1, 0; 1, 0, 0, 0; 0, 0, 0, 1] := by
  rw [toRadians_neg_ninety]
  ext i j
  fin_cases i <;> fin_cases j <;> norm_num [dh_row_matrix]

theorem urtM2_eval : dh_row_matrix 34 (toRadians 0) 0 (toRadians 90 + 0) =
    !![0, -1, 0, 34; 1, 0, 0, 0; 0, 0, 1, 0; 0, 0, 0, 1] := by
  rw [toRadians_zero, toRadians_ninety]
  ext i j
  fin_cases i <;> fin_cases j <;> norm_num [dh_row_matrix]

theorem urtM3_eval : dh_row_matrix 0 (toRadians 90) 32 (toRadians 0 + 0) =
    !![1, 0, 0, 0; 0, 0, -1, -32; 0, 1, 0, 0; 0, 0, 0, 1] := by
  rw [toRadians_zero, toRadians_ninety]
  ext i j
  fin_cases i <;> fin_cases j <;> norm_num [dh_row_matrix]

theorem urtM4_eval : dh_row_matrix 0 (toRadians (-90)) 0 (toRadians 0 + 0) =
    !![1, 0, 0, 0; 0, 0, 1, 0; 0, -1, 0, 0; 0, 0, 0, 1] := by
  rw [toRadians_zero, toRadians_neg_ninety]
  ext i j
  fin_cases i <;> fin_cases j <;> norm_num [dh_row_matrix]

theorem urtM5_eval : dh_row_matrix 0 (toRadians 90) 15 (toRadians 0 + 0) =
    !![1, 0, 0, 0; 0, 0, -1, -15; 0, 1, 0, 0; 0, 0, 0, 1] := by
  rw [toRadians_zero, toRadians_ninety]
  ext i j
  fin_cases i <;> fin_cases j <;> norm_num [dh_row_matrix]

theorem urtM6_eval : dh_row_matrix 0 (toRadians 0) 15 (toRadians 0) =
    !![1, 0, 0, 0; 0, 1, 0, 0; 0, 0, 1, 15; 0, 0, 0, 1] := by
  rw [toRadians_zero]
  ext i j
  fin_cases i <;> fin_cases j <;> norm_num [dh_row_matrix]

theorem urtT1 : urtTable.prefixTransform urtJoints 1 =
    !![1, 0, 0, 0; 0, 1, 0, 0; 0, 0, 1, 9; 0, 0, 0, 1] := by
  rw [urtTable.prefixTransform_succ urtJoints 0 (by norm_num)]
  have h0 : urtTable.prefixTransform urtJoints 0 = 1 := rfl
  rw [h0, one_mul]
  show (DHRow.new 0 0 9 0 false (some 0)).get_row_trans_mat urtJoints = _
  rw [urt_joint_row_mat 0 0 9 0 0 (by norm_num), urtM0_eval]

theorem urtT2 : urtTable.prefixTransform urtJoints 2 =
    !![0, 1, 0, 0; 0, 0, 1, 0; 1, 0, 0, 9; 0, 0, 0, 1] := by
  rw [urtTable.prefixTransform_succ urtJoints 1 (by norm_num), urtT1]
  show _ * (DHRow.new 0 (-90) 0 (-90) false (some 1)).get_row_trans_mat urtJoints = _
  rw [urt_joint_row_mat 0 (-90) 0 (-90) 1 (by norm_num), urtM1_eval, mul_fin_four]
  ext i j
  fin_cases i <;> fin_cases j <;> norm_num

theorem urtT3 : urtTable.prefixTransform urtJoints 3 =
    !![1, 0, 0, 0; 0, 0, 1, 0; 0, -1, 0, 43; 0, 0, 0, 1] := by
  rw [urtTable.prefixTransform_succ urtJoints 2 (by norm_num), urtT2]
  show _ * (DHRow.new 34 0 0 90 false (some 2)).get_row_trans_mat urtJoints = _
  rw [urt_joint_row_mat 34 0 0 90 2 (by norm_num), urtM2_eval, mul_fin_four]
  ext i j
  fin_cases i <;> fin_cases j <;> norm_num

theorem urtT4 : urtTable.prefixTransform urtJoints 4 =
    !![1, 0, 0, 0; 0, 1, 0, 0; 0, 0, 1, 75; 0, 0, 0, 1] := by
  rw [urtTable.prefixTransform_succ urtJoints 3 (by norm_num), urtT3]
  show _ * (DHRow.new 0 90 32 0 false (some 3)).get_row_trans_mat urtJoints = _
  rw [urt_joint_row_mat 0 90 32 0 3 (by norm_num), urtM3_eval, mul_fin_four]
  ext i j
  fin_cases i <;> fin_cases j <;> norm_num

theorem urtT5 : urtTable.prefixTransform urtJoints 5 =
    !![1, 0, 0, 0; 0, 0, 1, 0; 0, -1, 0, 75; 0, 0, 0, 1] := by
  rw [urtTable.prefixTransform_succ urtJoints 4 (by norm_num), urtT4]
  show _ * (DHRow.new 0 (-90) 0 0 false (some 4)).get_row_trans_mat urtJoints = _
  rw [urt_joint_row_mat 0 (-90) 0 0 4 (by norm_num), urtM4_eval, mul_fin_four]
  ext i j
  fin_cases i <;> fin_cases j <;> norm_num

theorem urtT6 : urtTable.prefixTransform urtJoints 6 =
    !![1, 0, 0, 0; 0, 1, 0, 0; 0, 0, 1, 90; 0, 0, 0, 1] := by
  rw [urtTable.prefixTransform_succ urtJoints 5 (by norm_num), urtT5]
  show _ * (DHRow.new 0 90 15 0 false (some 5)).get_row_trans_mat urtJoints = _
  rw [urt_joint_row_mat 0 90 15 0 5 (by norm_num), urtM5_eval, mul_fin_four]
  ext i j
  fin_cases i <;> fin_cases j <;> norm_num

theorem urtT7 : urtTable.prefixTransform urtJoints 7 =
    !![1, 0, 0, 0; 0, 1, 0, 0; 0, 0, 1, 105; 0, 0, 0, 1] := by
  rw [urtTable.prefixTransform_succ urtJoints 6 (by norm_num), urtT6]
  show _ * (DHRow.new 0 0 15 0 true none).get_row_trans_mat urtJoints = _
  rw [urt_fixed_row_mat 0 0 15 0, urtM6_eval, mul_fin_four]
  ext i j
  fin_cases i <;> fin_cases j <;> norm_num

/-- At all-zero joint angles the URT end-effector sits at height
`9 + 34 + 32 + 15 + 15 = 105`. -/
theorem urt_end_effector_z :
    (urtTable.all_poses urtJoints ⟨6, by norm_num⟩).position 2 = 105 := by
  show (Pose.from_homogeneous (urtTable.prefixTransform urtJoints 7)).position 2 = 105
  rw [urtT7]
  rfl

/-- C7 counterexample: at all-zero joint angles the end-effector z-coordinate
computed by forward kinematics is NOT 56 (the spec's `9+32+15` forgets the
`a = 34` link and the second 15-unit offset). -/
theorem C7_end_effector_height_counterexample :
    ¬ (urtTable.all_poses urtJoints ⟨6, by norm_num⟩).position 2 = 56 := by
  rw [urt_end_effector_z]
  norm_num

/-- C7 amended: the z-coordinate of the end-effector of the literal URT chain
at all-zero joint angles equals `9 + 34 + 32 + 15 + 15 = 105` units. -/
theorem C7_end_effector_height :
    (urtTable.all_poses urtJoints ⟨6, by norm_num⟩).position 2 =
      9 + 34 + 32 + 15 + 15 := by
  rw [urt_end_effector_z]
  norm_num

end Robotics
